import Mathlib

/-!
Shallow embedding of the doomfire crate (src/doomfire/src/lib.rs): a
Doom-style fire simulation on a width × height grid of intensity values with
a 37-color RGBA palette.  Rust usize arithmetic is modelled as arithmetic
modulo 2^64 and Vec-indexing panics are modelled with Option; the ThreadRng
field is modelled as an external oracle of raw draws, consumed in program
order, each draw masked with `&&& 3` exactly as the source masks the rounded
sample with `& 3`.
-/

def USIZE : Nat := 2 ^ 64

def usizeAdd (a b : Nat) : Nat := (a + b) % USIZE

def usizeSub (a b : Nat) : Nat := (a % USIZE + (USIZE - b % USIZE)) % USIZE

def usizeMul (a b : Nat) : Nat := (a * b) % USIZE

/-- Panicking write `v[i] = x` on a Rust Vec: out of bounds indexing panics,
modelled by none. -/
def listSet (l : List Nat) (i v : Nat) : Option (List Nat) :=
  if i < l.length then some (l.set i v) else none

/-- The rgba color palette with 37 color values from black to red to orange
to yellow to white (`PALETTE` in lib.rs). -/
def PALETTE : List (List Nat) := [
  [0x07, 0x07, 0x07, 0xFF],
  [0x1F, 0x07, 0x07, 0xFF],
  [0x2F, 0x0F, 0x07, 0xFF],
  [0x47, 0x0F, 0x07, 0xFF],
  [0x57, 0x17, 0x07, 0xFF],
  [0x67, 0x1F, 0x07, 0xFF],
  [0x77, 0x1F, 0x07, 0xFF],
  [0x8F, 0x27, 0x07, 0xFF],
  [0x9F, 0x2F, 0x07, 0xFF],
  [0xAF, 0x3F, 0x07, 0xFF],
  [0xBF, 0x47, 0x07, 0xFF],
  [0xC7, 0x47, 0x07, 0xFF],
  [0xDF, 0x4F, 0x07, 0xFF],
  [0xDF, 0x57, 0x07, 0xFF],
  [0xDF, 0x57, 0x07, 0xFF],
  [0xD7, 0x5F, 0x07, 0xFF],
  [0xD7, 0x5F, 0x07, 0xFF],
  [0xD7, 0x67, 0x0F, 0xFF],
  [0xCF, 0x6F, 0x0F, 0xFF],
  [0xCF, 0x77, 0x0F, 0xFF],
  [0xCF, 0x7F, 0x0F, 0xFF],
  [0xCF, 0x87, 0x17, 0xFF],
  [0xC7, 0x87, 0x17, 0xFF],
  [0xC7, 0x8F, 0x17, 0xFF],
  [0xC7, 0x97, 0x1F, 0xFF],
  [0xBF, 0x9F, 0x1F, 0xFF],
  [0xBF, 0x9F, 0x1F, 0xFF],
  [0xBF, 0xA7, 0x27, 0xFF],
  [0xBF, 0xA7, 0x27, 0xFF],
  [0xBF, 0xAF, 0x2F, 0xFF],
  [0xB7, 0xAF, 0x2F, 0xFF],
  [0xB7, 0xB7, 0x2F, 0xFF],
  [0xB7, 0xB7, 0x37, 0xFF],
  [0xCF, 0xCF, 0x6F, 0xFF],
  [0xDF, 0xDF, 0x9F, 0xFF],
  [0xEF, 0xEF, 0xC7, 0xFF],
  [0xFF, 0xFF, 0xFF, 0xFF]]

/-- The `Doomfire` struct: width, height, is_lit and the fire_pixels grid.
The `rng: ThreadRng` field is modelled externally as the oracle argument of
`update`. -/
structure Doomfire where
  width : Nat
  height : Nat
  is_lit : Bool
  fire_pixels : List Nat
deriving DecidableEq

/-- `Doomfire::new`: grid of `width * height` cells initialised to 0,
`is_lit = false`.  The source performs no validation of the dimensions. -/
def Doomfire.new (width height : Nat) : Doomfire :=
  { width := width, height := height, is_lit := false,
    fire_pixels := List.replicate (usizeMul width height) 0 }

/-- Destination index of the lit branch of `update`:
`(src_idx - rand + 1) - self.width` in usize arithmetic. -/
def litDstIdx (src_idx rand width : Nat) : Nat :=
  usizeSub (usizeAdd (usizeSub src_idx rand) 1) width

/-- Loop body of `Doomfire::update` for one (x, y) cell.  The state is the
grid together with the count of oracle draws consumed so far. -/
def updateCell (width : Nat) (is_lit : Bool) (max_idx : Nat)
    (oracle : Nat → Nat) (x y : Nat) (s : List Nat × Nat) :
    Option (List Nat × Nat) :=
  let src_idx := usizeAdd (usizeMul y width) x
  match s.1[src_idx]? with
  | none => none
  | some src_pixel =>
    let dst_idx := usizeSub src_idx width
    if src_pixel = 0 then
      (listSet s.1 dst_idx 0).map (fun l => (l, s.2))
    else
      let rand := oracle s.2 &&& 3
      if is_lit then
        let dst_idx := litDstIdx src_idx rand width
        (listSet s.1 dst_idx (usizeSub src_pixel (rand &&& 1))).map
          (fun l => (l, s.2 + 1))
      else
        let rand2 := oracle (s.2 + 1) &&& 3
        let dst_idx := usizeSub (usizeAdd (usizeSub src_idx rand) 1)
          (usizeMul width rand2)
        let dst_idx := if dst_idx > max_idx then max_idx else dst_idx
        (listSet s.1 dst_idx (usizeSub src_pixel (rand &&& 1))).map
          (fun l => (l, s.2 + 2))

/-- `Doomfire::update`: for x in 0..width, for y in 1..height, run the cell
body; `max_idx = width * height - 1` in usize arithmetic. -/
def Doomfire.update (df : Doomfire) (oracle : Nat → Nat) : Option Doomfire :=
  let max_idx := usizeSub (usizeMul df.width df.height) 1
  ((List.range df.width).foldlM
    (fun s x => (List.range' 1 (df.height - 1)).foldlM
      (fun s y => updateCell df.width df.is_lit max_idx oracle x y s) s)
    (df.fire_pixels, 0)).map
    (fun s => { df with fire_pixels := s.1 })

/-- `Doomfire::ignite`: for i in 0..width set cell
`(height - 1) * width + i` to `PALETTE.len() - 1`, then set `is_lit`. -/
def Doomfire.ignite (df : Doomfire) : Option Doomfire :=
  ((List.range df.width).foldlM
    (fun l i => listSet l
      (usizeAdd (usizeMul (usizeSub df.height 1) df.width) i)
      (PALETTE.length - 1))
    df.fire_pixels).map
    (fun l => { df with fire_pixels := l, is_lit := true })

/-- `Doomfire::extinguish`: only sets `is_lit = false` (the bottom-row loop
in the source is commented out). -/
def Doomfire.extinguish (df : Doomfire) : Doomfire :=
  { df with is_lit := false }

/-- Chunk loop of `Doomfire::draw`: `frame.chunks_exact_mut(4)` enumerated
with chunk index i; each chunk is overwritten with
`PALETTE[self.fire_pixels[i]]`, and a trailing remainder of fewer than 4
bytes is left untouched. -/
def drawLoop (pixels : List Nat) (i : Nat) (frame : List Nat) :
    Option (List Nat) :=
  match frame with
  | _b0 :: _b1 :: _b2 :: _b3 :: rest =>
    match pixels[i]? with
    | none => none
    | some p =>
      match PALETTE[p]? with
      | none => none
      | some c => (drawLoop pixels (i + 1) rest).map (fun r => c ++ r)
  | rest => some rest

/-- `Doomfire::draw` on a caller-supplied byte buffer. -/
def Doomfire.draw (df : Doomfire) (frame : List Nat) : Option (List Nat) :=
  drawLoop df.fire_pixels 0 frame

/-- The buffer the spec says `render` must produce: for each cell i in
row-major order the 4 bytes `Palette.colorOf(grid[i])`. -/
def renderSpec (pixels : List Nat) : List Nat :=
  (pixels.map (fun p => PALETTE.getD p [])).flatten

/-- k successive `ignite` calls. -/
def ignites : Nat → Doomfire → Option Doomfire
  | 0, df => some df
  | n + 1, df => (df.ignite).bind (ignites n)

/-- Run one `update` per oracle in the list (each `step()` call may see an
arbitrary fresh sequence of random draws). -/
def steps : List (Nat → Nat) → Doomfire → Option Doomfire
  | [], df => some df
  | o :: os, df => (df.update o).bind (steps os)

/-- States reachable from `new` by any finite sequence of `ignite`,
`extinguish` and `update` calls, the latter under any random draws; a
panicking call produces no state. -/
inductive Reachable : Doomfire → Prop
  | new_ (w h : Nat) : Reachable (Doomfire.new w h)
  | ignite_ (df df' : Doomfire) : Reachable df → df.ignite = some df' →
      Reachable df'
  | extinguish_ (df : Doomfire) : Reachable df → Reachable df.extinguish
  | update_ (df df' : Doomfire) (oracle : Nat → Nat) : Reachable df →
      df.update oracle = some df' → Reachable df'

/-! ## Helper lemmas -/

lemma USIZE_pos : 0 < USIZE := by decide

lemma usizeAdd_eq {a b : Nat} (h : a + b < USIZE) : usizeAdd a b = a + b := by
  unfold usizeAdd
  exact Nat.mod_eq_of_lt h

lemma usizeMul_eq {a b : Nat} (h : a * b < USIZE) : usizeMul a b = a * b := by
  unfold usizeMul
  exact Nat.mod_eq_of_lt h

lemma usizeSub_eq {a b : Nat} (hb : b ≤ a) (ha : a < USIZE) :
    usizeSub a b = a - b := by
  have hbU : b < USIZE := lt_of_le_of_lt hb ha
  unfold usizeSub
  rw [Nat.mod_eq_of_lt ha, Nat.mod_eq_of_lt hbU]
  have h1 : a + (USIZE - b) = USIZE + (a - b) := by omega
  rw [h1, Nat.add_mod_left, Nat.mod_eq_of_lt (by omega)]

lemma mem_of_getElem_opt {α : Type} {l : List α} {i : Nat} {v : α}
    (h : l[i]? = some v) : v ∈ l := by
  rw [List.getElem?_eq_some] at h
  obtain ⟨h1, h2⟩ := h
  exact h2 ▸ List.getElem_mem h1

lemma foldlM_opt_inv {α β : Type} (P : α → Prop) (f : α → β → Option α)
    (hf : ∀ a b a', P a → f a b = some a' → P a') :
    ∀ (l : List β) (a a' : α), P a → l.foldlM f a = some a' → P a' := by
  intro l
  induction l with
  | nil =>
    intro a a' ha heq
    simp [List.foldlM_nil] at heq
    exact heq ▸ ha
  | cons b t ih =>
    intro a a' ha heq
    rw [List.foldlM_cons] at heq
    cases hfa : f a b with
    | none => rw [hfa] at heq; simp at heq
    | some a1 =>
      rw [hfa] at heq
      simp at heq
      exact ih a1 a' (hf a b a1 ha hfa) heq

lemma foldlM_opt_some {α β : Type} (P : α → Prop) (f : α → β → Option α) :
    ∀ (l : List β), (∀ a b, b ∈ l → P a → ∃ a', f a b = some a' ∧ P a') →
      ∀ a, P a → ∃ a', l.foldlM f a = some a' ∧ P a' := by
  intro l
  induction l with
  | nil =>
    intro _ a ha
    exact ⟨a, by simp [List.foldlM_nil], ha⟩
  | cons b t ih =>
    intro hf a ha
    obtain ⟨a1, hfa, ha1⟩ := hf a b (by simp) ha
    obtain ⟨a', heq, ha'⟩ := ih (fun a b hb => hf a b (by simp [hb])) a1 ha1
    refine ⟨a', ?_, ha'⟩
    rw [List.foldlM_cons, hfa]
    simpa using heq

lemma foldlM_opt_ext {α β : Type} (f g : α → β → Option α) :
    ∀ (l : List β) (a : α), (∀ a b, b ∈ l → f a b = g a b) →
      l.foldlM f a = l.foldlM g a := by
  intro l
  induction l with
  | nil => intro a _; simp [List.foldlM_nil]
  | cons b t ih =>
    intro a h
    rw [List.foldlM_cons, List.foldlM_cons, h a b (by simp)]
    cases g a b with
    | none => rfl
    | some a1 =>
      exact ih a1 (fun a b hb => h a b (by simp [hb]))

lemma usizeSub_decay_le {src d M : Nat} (h0 : src ≠ 0) (hd : d ≤ 1)
    (hM : src ≤ M) (hU : M < USIZE) : usizeSub src d ≤ M := by
  rw [usizeSub_eq (by omega) (by omega)]
  omega

lemma listSet_map_eq {l : List Nat} {i v c : Nat} {s' : List Nat × Nat}
    (heq : (listSet l i v).map (fun l => (l, c)) = some s') :
    s'.1 = l.set i v ∧ i < l.length ∧ s'.2 = c := by
  unfold listSet at heq
  by_cases h : i < l.length
  · rw [if_pos h] at heq
    have hs : (l.set i v, c) = s' := by simpa using heq
    exact ⟨by rw [← hs], h, by rw [← hs]⟩
  · rw [if_neg h] at heq
    simp at heq

lemma set_all_le {M v : Nat} {l : List Nat} {i : Nat}
    (hl : ∀ w ∈ l, w ≤ M) (hv : v ≤ M) : ∀ w ∈ l.set i v, w ≤ M := by
  intro w hw
  rcases List.mem_or_eq_of_mem_set hw with h | h
  · exact hl w h
  · exact h ▸ hv

/-- Every value the update body writes is 0 or `src - (rand & 1)` for a
current cell value `src`, so a uniform upper bound below `USIZE` on the grid
is preserved by each cell update. -/
lemma updateCell_le {M : Nat} {width : Nat} {lit : Bool} {max_idx : Nat}
    {oracle : Nat → Nat} {x y : Nat} {s s' : List Nat × Nat}
    (hM : M < USIZE) (hs : ∀ v ∈ s.1, v ≤ M)
    (heq : updateCell width lit max_idx oracle x y s = some s') :
    ∀ v ∈ s'.1, v ≤ M := by
  simp only [updateCell] at heq
  cases hread : s.1[usizeAdd (usizeMul y width) x]? with
  | none => rw [hread] at heq; simp at heq
  | some src =>
    rw [hread] at heq
    have hsrc : src ≤ M := hs src (mem_of_getElem_opt hread)
    by_cases h0 : src = 0
    · simp only [h0, if_pos] at heq
      obtain ⟨hset, _, _⟩ := listSet_map_eq heq
      rw [hset]
      exact set_all_le hs (Nat.zero_le M)
    · simp only [if_neg h0] at heq
      have hd : oracle s.2 &&& 3 &&& 1 ≤ 1 := Nat.and_le_right
      have hval : usizeSub src (oracle s.2 &&& 3 &&& 1) ≤ M :=
        usizeSub_decay_le h0 hd hsrc hM
      cases lit with
      | true =>
        rw [if_pos rfl] at heq
        obtain ⟨hset, _, _⟩ := listSet_map_eq heq
        rw [hset]
        exact set_all_le hs hval
      | false =>
        rw [if_neg (by simp)] at heq
        obtain ⟨hset, _, _⟩ := listSet_map_eq heq
        rw [hset]
        exact set_all_le hs hval

/-- A uniform upper bound below `USIZE` on all grid values is preserved by a
successful `update`, for every random oracle. -/
lemma update_le {M : Nat} {df df' : Doomfire} {oracle : Nat → Nat}
    (hM : M < USIZE) (hs : ∀ v ∈ df.fire_pixels, v ≤ M)
    (heq : df.update oracle = some df') : ∀ v ∈ df'.fire_pixels, v ≤ M := by
  unfold Doomfire.update at heq
  rw [Option.map_eq_some'] at heq
  obtain ⟨s, hfold, hdf⟩ := heq
  have hinner : ∀ (a : List Nat × Nat) (b : Nat) (a' : List Nat × Nat),
      (∀ v ∈ a.1, v ≤ M) →
      (List.range' 1 (df.height - 1)).foldlM
        (fun s y => updateCell df.width df.is_lit
          (usizeSub (usizeMul df.width df.height) 1) oracle b y s) a =
        some a' →
      ∀ v ∈ a'.1, v ≤ M := by
    intro a b a' ha hfa
    exact foldlM_opt_inv _ _ (fun a y a' ha h => updateCell_le hM ha h) _ a a'
      ha hfa
  have hP := foldlM_opt_inv (fun s : List Nat × Nat => ∀ v ∈ s.1, v ≤ M) _
    hinner (List.range df.width) (df.fire_pixels, 0) s hs hfold
  rw [← hdf]
  exact hP

lemma src_idx_eq {w h x y : Nat} (hx : x < w) (hy : y < h)
    (hov : w * h < USIZE) :
    usizeAdd (usizeMul y w) x = y * w + x ∧ y * w + x < w * h := by
  have h1 : y * w + x < w * h := by
    calc y * w + x < y * w + w := by omega
    _ = (y + 1) * w := by ring
    _ ≤ h * w := Nat.mul_le_mul_right w (by omega)
    _ = w * h := Nat.mul_comm h w
  constructor
  · rw [usizeMul_eq (by omega), usizeAdd_eq (by omega)]
  · exact h1

/-- The unlit branch of the update body never panics on a well-formed grid:
the destination index is clamped to `max_idx` before the write. -/
lemma updateCell_some_unlit {w h : Nat} {oracle : Nat → Nat} {x y : Nat}
    (s : List Nat × Nat) (hx : x < w) (hy1 : 1 ≤ y) (hy : y < h)
    (hpos : 1 ≤ w * h) (hov : w * h < USIZE)
    (hlen : s.1.length = w * h) :
    ∃ s', updateCell w false (usizeSub (usizeMul w h) 1) oracle x y s =
      some s' ∧ s'.1.length = w * h := by
  obtain ⟨hidx, hlt⟩ := src_idx_eq hx hy hov
  have hwle : w ≤ y * w + x := by
    have : 1 * w ≤ y * w := Nat.mul_le_mul_right w hy1
    omega
  have hmax : usizeSub (usizeMul w h) 1 = w * h - 1 := by
    rw [usizeMul_eq hov, usizeSub_eq (by omega) hov]
  simp only [updateCell, hidx]
  cases hread : s.1[y * w + x]? with
  | none =>
    exfalso
    rw [List.getElem?_eq_none_iff] at hread
    omega
  | some src =>
    by_cases h0 : src = 0
    · simp only [h0, if_pos]
      have hdst : usizeSub (y * w + x) w = y * w + x - w :=
        usizeSub_eq hwle (by omega)
      rw [hdst]
      have hin : y * w + x - w < s.1.length := by omega
      refine ⟨(s.1.set (y * w + x - w) 0, s.2), ?_, by simp [hlen]⟩
      simp [listSet, if_pos hin]
    · simp only [if_neg h0, Bool.false_eq_true, if_false]
      rw [hmax]
      set dst := usizeSub (usizeAdd (usizeSub (y * w + x) (oracle s.2 &&& 3))
        1) (usizeMul w (oracle (s.2 + 1) &&& 3)) with hdstdef
      have hcl : (if dst > w * h - 1 then w * h - 1 else dst) < s.1.length := by
        split <;> omega
      refine ⟨(s.1.set (if dst > w * h - 1 then w * h - 1 else dst)
        (usizeSub src (oracle s.2 &&& 3 &&& 1)), s.2 + 2), ?_, by simp [hlen]⟩
      simp [listSet, if_pos hcl]

/-- On an all-zero well-formed grid the update body takes the zero branch for
every cell, writes a 0 one row up, and cannot panic, for either value of
`is_lit` and any `max_idx`. -/
lemma updateCell_zero {w h : Nat} {lit : Bool} {max_idx : Nat}
    {oracle : Nat → Nat} {x y : Nat} (s : List Nat × Nat)
    (hx : x < w) (hy1 : 1 ≤ y) (hy : y < h) (hov : w * h < USIZE)
    (hlen : s.1.length = w * h) (hzero : ∀ v ∈ s.1, v = 0) :
    ∃ s', updateCell w lit max_idx oracle x y s = some s' ∧
      s'.1.length = w * h ∧ ∀ v ∈ s'.1, v = 0 := by
  obtain ⟨hidx, hlt⟩ := src_idx_eq hx hy hov
  have hwle : w ≤ y * w + x := by
    have : 1 * w ≤ y * w := Nat.mul_le_mul_right w hy1
    omega
  simp only [updateCell, hidx]
  cases hread : s.1[y * w + x]? with
  | none =>
    exfalso
    rw [List.getElem?_eq_none_iff] at hread
    omega
  | some src =>
    have h0 : src = 0 := hzero src (mem_of_getElem_opt hread)
    simp only [h0, if_pos]
    have hdst : usizeSub (y * w + x) w = y * w + x - w :=
      usizeSub_eq hwle (by omega)
    rw [hdst]
    have hin : y * w + x - w < s.1.length := by omega
    refine ⟨(s.1.set (y * w + x - w) 0, s.2), ?_, by simp [hlen], ?_⟩
    · simp [listSet, if_pos hin]
    · intro v hv
      rcases List.mem_or_eq_of_mem_set hv with hmem | hval
      · exact hzero v hmem
      · exact hval

/-- An unlit `update` never panics on a well-formed nonempty grid. -/
lemma update_some_unlit {df : Doomfire} {oracle : Nat → Nat}
    (hlit : df.is_lit = false)
    (hlen : df.fire_pixels.length = df.width * df.height)
    (hpos : 1 ≤ df.width * df.height)
    (hov : df.width * df.height < USIZE) :
    ∃ df', df.update oracle = some df' ∧
      df'.fire_pixels.length = df.width * df.height := by
  have hh : 1 ≤ df.height := by
    by_contra h
    have : df.height = 0 := by omega
    rw [this, Nat.mul_zero] at hpos
    omega
  have houter := foldlM_opt_some
    (fun s : List Nat × Nat => s.1.length = df.width * df.height)
    (fun s x => (List.range' 1 (df.height - 1)).foldlM
      (fun s y => updateCell df.width df.is_lit
        (usizeSub (usizeMul df.width df.height) 1) oracle x y s) s)
    (List.range df.width)
    (fun a x hxmem ha => by
      have hx : x < df.width := List.mem_range.mp hxmem
      exact foldlM_opt_some _ _ (List.range' 1 (df.height - 1))
        (fun a y hymem ha => by
          have hy := List.mem_range'_1.mp hymem
          rw [hlit]
          exact updateCell_some_unlit a hx hy.1 (by omega) hpos hov ha) a ha)
    (df.fire_pixels, 0) hlen
  obtain ⟨s, hfold, hP⟩ := houter
  refine ⟨{ df with fire_pixels := s.1 }, ?_, hP⟩
  simp only [Doomfire.update]
  rw [hfold]
  rfl

/-- An `update` from an all-zero well-formed grid never panics and leaves
every cell at 0, for any `is_lit` and any oracle. -/
lemma update_zero {df : Doomfire} {oracle : Nat → Nat}
    (hlen : df.fire_pixels.length = df.width * df.height)
    (hov : df.width * df.height < USIZE)
    (hzero : ∀ v ∈ df.fire_pixels, v = 0) :
    ∃ df', df.update oracle = some df' ∧
      df'.fire_pixels.length = df.width * df.height ∧
      ∀ v ∈ df'.fire_pixels, v = 0 := by
  have houter := foldlM_opt_some
    (fun s : List Nat × Nat =>
      s.1.length = df.width * df.height ∧ ∀ v ∈ s.1, v = 0)
    (fun s x => (List.range' 1 (df.height - 1)).foldlM
      (fun s y => updateCell df.width df.is_lit
        (usizeSub (usizeMul df.width df.height) 1) oracle x y s) s)
    (List.range df.width)
    (fun a x hxmem ha => by
      have hx : x < df.width := List.mem_range.mp hxmem
      exact foldlM_opt_some _ _ (List.range' 1 (df.height - 1))
        (fun a y hymem ha => by
          have hy := List.mem_range'_1.mp hymem
          have hyh : y < df.height := by
            have := hy.2
            omega
          obtain ⟨s', hs', hl', hz'⟩ :=
            updateCell_zero a hx hy.1 hyh hov ha.1 ha.2
          exact ⟨s', hs', hl', hz'⟩) a ha)
    (df.fire_pixels, 0) ⟨hlen, hzero⟩
  obtain ⟨s, hfold, hP⟩ := houter
  refine ⟨{ df with fire_pixels := s.1 }, ?_, hP.1, hP.2⟩
  simp only [Doomfire.update]
  rw [hfold]
  rfl

/-- `ignite` only writes the value `PALETTE.len() - 1 = 36`, so it preserves
the bound 36 on all grid values. -/
lemma ignite_le {df df' : Doomfire} (hs : ∀ v ∈ df.fire_pixels, v ≤ 36)
    (heq : df.ignite = some df') : ∀ v ∈ df'.fire_pixels, v ≤ 36 := by
  unfold Doomfire.ignite at heq
  rw [Option.map_eq_some'] at heq
  obtain ⟨l, hfold, hdf⟩ := heq
  have hP := foldlM_opt_inv (fun l : List Nat => ∀ v ∈ l, v ≤ 36) _
    (fun a b a' ha h => by
      unfold listSet at h
      by_cases hin : usizeAdd (usizeMul (usizeSub df.height 1) df.width) b <
          a.length
      · rw [if_pos hin] at h
        have ha' : a' = a.set
            (usizeAdd (usizeMul (usizeSub df.height 1) df.width) b)
            (PALETTE.length - 1) := ((Option.some.injEq _ _).mp h).symm
        rw [ha']
        exact set_all_le ha (by decide)
      · rw [if_neg hin] at h
        simp at h)
    (List.range df.width) df.fire_pixels l hs hfold
  rw [← hdf]
  exact hP

lemma le_foldr_max {l : List Nat} {v : Nat} (h : v ∈ l) :
    v ≤ l.foldr max 0 := by
  induction l with
  | nil => cases h
  | cons a t ih =>
    rcases List.mem_cons.mp h with rfl | h
    · exact le_max_left _ _
    · exact le_trans (ih h) (le_max_right _ _)

lemma foldr_max_le {l : List Nat} {M : Nat} (h : ∀ v ∈ l, v ≤ M) :
    l.foldr max 0 ≤ M := by
  induction l with
  | nil => exact Nat.zero_le M
  | cons a t ih =>
    exact max_le (h a (by simp)) (ih fun v hv => h v (by simp [hv]))

lemma foldr_max_ltU {l : List Nat} (h : ∀ v ∈ l, v < USIZE) :
    l.foldr max 0 < USIZE := by
  induction l with
  | nil => exact USIZE_pos
  | cons a t ih =>
    exact max_lt (h a (by simp)) (ih fun v hv => h v (by simp [hv]))

/-! ## Claim theorems -/

/-- C1: every FireField reachable from `new` by any finite sequence of
`ignite`, `extinguish` and `step` calls, for any sequence of random draws,
has every grid cell in the closed range [0, 36] (the lower bound holds
because cells are naturals in the embedding). -/
theorem C1_reachable_cells_le_36 (df : Doomfire) (h : Reachable df) :
    ∀ v ∈ df.fire_pixels, v ≤ 36 := by
  induction h with
  | new_ w h =>
    intro v hv
    simp only [Doomfire.new] at hv
    rw [List.eq_of_mem_replicate hv]
    exact Nat.zero_le 36
  | ignite_ df df' hr hig ih => exact ignite_le ih hig
  | extinguish_ df hr ih => exact ih
  | update_ df df' oracle hr hup ih => exact update_le (by decide) ih hup

/-- Witness for C1 at the state reached by `new 2 2` then `ignite`. -/
theorem C1_witness :
    Reachable (⟨2, 2, true, [0, 0, 36, 36]⟩ : Doomfire) ∧
    ∀ v ∈ (⟨2, 2, true, [0, 0, 36, 36]⟩ : Doomfire).fire_pixels, v ≤ 36 := by
  have hr : Reachable (⟨2, 2, true, [0, 0, 36, 36]⟩ : Doomfire) :=
    Reachable.ignite_ (Doomfire.new 2 2) _ (Reachable.new_ 2 2) (by decide)
  exact ⟨hr, C1_reachable_cells_le_36 _ hr⟩

/-- C2 counterexample: the lit branch of `update` does NOT clamp its
destination index.  After `new(3,2)` and `ignite()` the bottom row is
[36,36,36]; with a draw of 3 at cell (x=0, y=1) the destination index
`(src_idx - rand + 1) - width = (3 - 3 + 1) - 3` wraps around via unsigned
subtraction and is written without any clamp, so `step()` indexes the grid
out of bounds (a panic, modelled as none), refuting the claim that every
wrapped index is clamped in either branch. -/
theorem C2_counterexample :
    ((Doomfire.new 3 2).ignite).bind
      (fun df => df.update (fun _ => 3)) = none := by decide

/-- C2 amended: only the unlit branch clamps its destination index to
`max_idx = width*height - 1`; together with the zero branch this makes an
unlit `step()` on a well-formed nonempty grid free of out-of-bounds
accesses.  (The lit branch has no clamp and can go out of bounds, see the
counterexample.) -/
theorem C2_unlit_no_oob (df : Doomfire) (oracle : Nat → Nat)
    (hlit : df.is_lit = false)
    (hlen : df.fire_pixels.length = df.width * df.height)
    (hpos : 1 ≤ df.width * df.height)
    (hov : df.width * df.height < USIZE) :
    ∃ df', df.update oracle = some df' := by
  obtain ⟨df', h, _⟩ := update_some_unlit hlit hlen hpos hov
  exact ⟨df', h⟩

/-- Witness for C2's amended theorem on a concrete unlit 2×2 field. -/
theorem C2_witness :
    ∃ df', Doomfire.update ⟨2, 2, false, [0, 0, 36, 36]⟩ (fun _ => 0) =
      some df' :=
  C2_unlit_no_oob ⟨2, 2, false, [0, 0, 36, 36]⟩ (fun _ => 0) (by decide)
    (by decide) (by decide) (by decide)

/-- C4 counterexample: `new` performs no validation: with zero width it
happily returns a FireField over an empty grid instead of failing at
construction time. -/
theorem C4_counterexample :
    Doomfire.new 0 5 = ⟨0, 5, false, []⟩ := by decide

/-- C4 amended: `new` never fails; for every width and height (zero
included) it returns the FireField with the given dimensions, `lit = false`
and `width * height` (as usize) zero-initialised cells. -/
theorem C4_new_total (w h : Nat) :
    (Doomfire.new w h).width = w ∧ (Doomfire.new w h).height = h ∧
    (Doomfire.new w h).is_lit = false ∧
    (Doomfire.new w h).fire_pixels.length = usizeMul w h ∧
    ∀ v ∈ (Doomfire.new w h).fire_pixels, v = 0 := by
  refine ⟨rfl, rfl, rfl, by simp [Doomfire.new], ?_⟩
  intro v hv
  exact List.eq_of_mem_replicate hv

/-- C5 counterexample: destinations are not always strictly above the source
row.  On a 2×2 lit grid with only cell 3 = (x=1, y=1) nonzero and draws of
0, the source cell 3 in row 1 writes to cell
`(3 - 0 + 1) - 2 = 2` — which is (x=0, y=1), in the SAME row 1 — turning
cell 2 from 0 into 1. -/
theorem C5_counterexample :
    Doomfire.update ⟨2, 2, true, [0, 0, 0, 1]⟩ (fun _ => 0) =
      some ⟨2, 2, true, [0, 0, 1, 1]⟩ := by decide

/-- C5 amended: the zero branch always writes exactly one row above its
source, and the lit branch writes strictly above its source row except in
the corner case `rand = 0 ∧ x = width - 1`, where it writes to the first
cell of the source's own row (the unlit branch can even write to the same
or a lower row, see the counterexample's pattern with `rand2 = 0`).
Stated on the written destination indices: both are `< y * width`, i.e.
strictly before the source row in row-major order. -/
theorem C5_dst_above (w h x y rand : Nat) (hx : x < w) (hy1 : 1 ≤ y)
    (hy : y < h) (hrand : rand ≤ 3) (hov : w * h < USIZE)
    (hnw : rand + w ≤ y * w + x + 1)
    (hexc : ¬(rand = 0 ∧ x = w - 1)) :
    usizeSub (y * w + x) w < y * w ∧ litDstIdx (y * w + x) rand w < y * w := by
  have hwpos : 1 ≤ w := by omega
  have hwle : w ≤ y * w := by
    calc w = 1 * w := (Nat.one_mul w).symm
    _ ≤ y * w := Nat.mul_le_mul_right w hy1
  have hsrclt : y * w + x < w * h := (src_idx_eq hx hy hov).2
  have hxr : rand = 0 → x + 1 ≤ w - 1 := by
    intro h0
    have : x ≠ w - 1 := fun hxe => hexc ⟨h0, hxe⟩
    omega
  set a := y * w with ha
  constructor
  · rw [usizeSub_eq (by omega) (by omega)]
    omega
  · have h1 : rand ≤ a + x := by omega
    rw [litDstIdx, usizeSub_eq h1 (by omega), usizeAdd_eq (by omega),
      usizeSub_eq (by omega) (by omega)]
    rcases Nat.eq_zero_or_pos rand with h0 | h0
    · have := hxr h0
      omega
    · omega

/-- Witness for C5's amended theorem at w=3, h=2, x=0, y=1, rand=1. -/
theorem C5_witness :
    usizeSub (1 * 3 + 0) 3 < 1 * 3 ∧ litDstIdx (1 * 3 + 0) 1 3 < 1 * 3 :=
  C5_dst_above 3 2 0 1 1 (by decide) (by decide) (by decide) (by decide)
    (by decide) (by decide) (by decide)

/-- C6: `extinguish()` sets `lit` to false and changes nothing else: for
every state (in particular every reachable one, and the state just after
`ignite()`), the grid and the dimensions are untouched. -/
theorem C6_extinguish_only_flag (df : Doomfire) :
    df.extinguish.fire_pixels = df.fire_pixels ∧
    df.extinguish.width = df.width ∧ df.extinguish.height = df.height ∧
    df.extinguish.is_lit = false :=
  ⟨rfl, rfl, rfl, rfl⟩

/-- C10: the maximum grid intensity is non-increasing under `step()` (every
written value is 0 or `src - (rand & 1)` for a current cell value `src`) and
is left unchanged by `extinguish()`; stated for every state whose cells are
genuine usize values and every oracle. -/
theorem C10_max_nonincreasing (df df' : Doomfire) (oracle : Nat → Nat)
    (hU : ∀ v ∈ df.fire_pixels, v < USIZE)
    (hstep : df.update oracle = some df') :
    df'.fire_pixels.foldr max 0 ≤ df.fire_pixels.foldr max 0 ∧
    df.extinguish.fire_pixels.foldr max 0 = df.fire_pixels.foldr max 0 := by
  constructor
  · exact foldr_max_le
      (update_le (foldr_max_ltU hU) (fun v hv => le_foldr_max hv) hstep)
  · rfl

/-- Witness for C10 on a concrete lit 2×2 field and the all-zero oracle. -/
theorem C10_witness :
    (⟨2, 2, true, [0, 36, 36, 36]⟩ : Doomfire).fire_pixels.foldr max 0 ≤
      (⟨2, 2, true, [0, 0, 36, 36]⟩ : Doomfire).fire_pixels.foldr max 0 ∧
    (Doomfire.extinguish
        ⟨2, 2, true, [0, 0, 36, 36]⟩).fire_pixels.foldr max 0 =
      (⟨2, 2, true, [0, 0, 36, 36]⟩ : Doomfire).fire_pixels.foldr max 0 :=
  C10_max_nonincreasing ⟨2, 2, true, [0, 0, 36, 36]⟩
    ⟨2, 2, true, [0, 36, 36, 36]⟩ (fun _ => 0) (by decide) (by decide)

lemma palette_len4 {p : Nat} {c : List Nat} (h : PALETTE[p]? = some c) :
    c.length = 4 := by
  have hall : ∀ c ∈ PALETTE, c.length = 4 := by decide
  exact hall c (mem_of_getElem_opt h)

/-- With at least one whole 4-byte chunk more than the grid has cells, the
draw loop always panics (either on a palette lookup for an invalid cell
value, or on the `fire_pixels[i]` read once i reaches the grid length). -/
lemma drawLoop_none (pixels : List Nat) :
    ∀ (i : Nat) (frame : List Nat),
      4 * (pixels.length - i) + 4 ≤ frame.length →
      drawLoop pixels i frame = none
  | i, b0 :: b1 :: b2 :: b3 :: rest, h => by
    cases hp : pixels[i]? with
    | none => simp only [drawLoop, hp]
    | some p =>
      cases hc : PALETTE[p]? with
      | none => simp only [drawLoop, hp, hc]
      | some c =>
        have hi : i < pixels.length := by
          rcases List.getElem?_eq_some.mp hp with ⟨hlt, _⟩
          exact hlt
        have hrec := drawLoop_none pixels (i + 1) rest (by
          simp only [List.length_cons] at h
          omega)
        simp only [drawLoop, hp, hc, hrec, Option.map_none']
  | _, [], h => by
    simp only [List.length_nil] at h
    omega
  | _, [_], h => by
    simp only [List.length_cons, List.length_nil] at h
    omega
  | _, [_, _], h => by
    simp only [List.length_cons, List.length_nil] at h
    omega
  | _, [_, _, _], h => by
    simp only [List.length_cons, List.length_nil] at h
    omega

/-- With fewer whole 4-byte chunks than (or exactly as many as) the grid has
cells, and in-range cell values, the draw loop succeeds and the buffer keeps
its length: short buffers are silently truncated, never rejected. -/
lemma drawLoop_trunc (pixels : List Nat) :
    ∀ (i : Nat) (frame : List Nat),
      (∀ v ∈ pixels, v ≤ 36) →
      i + frame.length / 4 ≤ pixels.length →
      ∃ out, drawLoop pixels i frame = some out ∧ out.length = frame.length
  | i, b0 :: b1 :: b2 :: b3 :: rest, hval, hcnt => by
    have hi : i < pixels.length := by
      simp only [List.length_cons] at hcnt
      omega
    have hp : pixels[i]? = some (pixels[i]) := List.getElem?_eq_getElem hi
    have hple : pixels[i] < PALETTE.length := by
      have h36 := hval _ (List.getElem_mem hi)
      have : PALETTE.length = 37 := rfl
      omega
    have hc : PALETTE[pixels[i]]? = some (PALETTE[pixels[i]]) :=
      List.getElem?_eq_getElem hple
    obtain ⟨out, ho, hol⟩ := drawLoop_trunc pixels (i + 1) rest hval (by
      simp only [List.length_cons] at hcnt
      omega)
    refine ⟨PALETTE[pixels[i]] ++ out, ?_, ?_⟩
    · simp only [drawLoop, hp, hc, ho]
      rfl
    · simp only [List.length_append, List.length_cons, hol]
      rw [palette_len4 hc]
      omega
  | _, [], _, _ => ⟨[], rfl, rfl⟩
  | _, [a], _, _ => ⟨[a], rfl, rfl⟩
  | _, [a, b], _, _ => ⟨[a, b], rfl, rfl⟩
  | _, [a, b, c], _, _ => ⟨[a, b, c], rfl, rfl⟩

/-- With exactly `4 * (#cells - i)` bytes left, the draw loop writes the
palette color of every remaining cell, chunk by chunk. -/
lemma drawLoop_exact (pixels : List Nat) :
    ∀ (i : Nat) (frame : List Nat),
      (∀ v ∈ pixels, v ≤ 36) →
      frame.length = 4 * (pixels.length - i) →
      drawLoop pixels i frame =
        some (((pixels.drop i).map (fun p => PALETTE.getD p [])).flatten)
  | i, b0 :: b1 :: b2 :: b3 :: rest, hval, hlen => by
    have hi : i < pixels.length := by
      simp only [List.length_cons] at hlen
      omega
    have hp : pixels[i]? = some (pixels[i]) := List.getElem?_eq_getElem hi
    have hple : pixels[i] < PALETTE.length := by
      have h36 := hval _ (List.getElem_mem hi)
      have : PALETTE.length = 37 := rfl
      omega
    have hc : PALETTE[pixels[i]]? = some (PALETTE[pixels[i]]) :=
      List.getElem?_eq_getElem hple
    have hrec := drawLoop_exact pixels (i + 1) rest hval (by
      simp only [List.length_cons] at hlen
      omega)
    simp only [drawLoop, hp, hc, hrec]
    rw [List.drop_eq_getElem_cons hi]
    simp only [List.map_cons, List.flatten_cons, Option.map_some']
    rw [List.getD_eq_getElem?_getD, hc]
    rfl
  | i, [], hval, hlen => by
    have : pixels.length - i = 0 := by
      simp only [List.length_nil] at hlen
      omega
    have hdrop : pixels.drop i = [] := List.drop_eq_nil_iff.mpr (by omega)
    simp [drawLoop, hdrop]
  | _, [_], _, hlen => by simp at hlen; omega
  | _, [_, _], _, hlen => by simp at hlen; omega
  | _, [_, _, _], _, hlen => by simp at hlen; omega

/-- C3 counterexample: `draw` with a buffer of the wrong length does not
fail fast.  A 1×1 field needs a 4-byte buffer, but a 3-byte buffer is
accepted: the call succeeds and leaves the 3 bytes untouched (silent
truncation), refuting the claim that too-short buffers are rejected. -/
theorem C3_counterexample :
    Doomfire.draw (Doomfire.new 1 1) [1, 2, 3] = some [1, 2, 3] := by decide

/-- C3 amended: `draw` does not validate the buffer length.  A buffer with
at least one whole 4-byte chunk beyond the cell count makes it panic
mid-write on an out-of-bounds `fire_pixels` read; any shorter buffer
(including every too-short one and overlong ones by 1-3 bytes) is accepted
and silently truncated: only `length/4` chunks are written and the
remaining bytes are left as they were. -/
theorem C3_wrong_length (df : Doomfire) (frame : List Nat) :
    (4 * df.fire_pixels.length + 4 ≤ frame.length → df.draw frame = none) ∧
    (frame.length ≤ 4 * df.fire_pixels.length + 3 →
      (∀ v ∈ df.fire_pixels, v ≤ 36) →
      ∃ out, df.draw frame = some out ∧ out.length = frame.length) := by
  constructor
  · intro h
    exact drawLoop_none df.fire_pixels 0 frame (by omega)
  · intro h hval
    exact drawLoop_trunc df.fire_pixels 0 frame hval (by omega)

/-- Witness for C3's amended theorem: an 8-byte buffer on a 1-cell field
panics. -/
theorem C3_witness :
    Doomfire.draw ⟨1, 1, false, [0]⟩ (List.replicate 8 9) = none :=
  (C3_wrong_length ⟨1, 1, false, [0]⟩ (List.replicate 8 9)).1 (by decide)

/-- C9: with a buffer of exactly `width*height*4` bytes and a well-formed
grid of in-range intensities, `draw` fills byte range [4i, 4i+4) with
`PALETTE[grid[i]]` for every cell i in row-major order — the buffer becomes
exactly the spec-side rendering `renderSpec`; `draw` takes the field
immutably (`&self` in the source, a pure function in the embedding), so the
grid, `lit` and the dimensions are untouched. -/
theorem C9_draw_renders_palette (df : Doomfire) (frame : List Nat)
    (hlen : frame.length = 4 * (df.width * df.height))
    (hpix : df.fire_pixels.length = df.width * df.height)
    (hval : ∀ v ∈ df.fire_pixels, v ≤ 36) :
    df.draw frame = some (renderSpec df.fire_pixels) := by
  unfold Doomfire.draw renderSpec
  rw [drawLoop_exact df.fire_pixels 0 frame hval (by omega)]
  simp

/-- Witness for C9: a 1×2 field with both cells at intensity 5 renders both
4-byte chunks as `PALETTE[5]`. -/
theorem C9_witness :
    Doomfire.draw ⟨1, 2, false, [5, 5]⟩ (List.replicate 8 0) =
      some (renderSpec [5, 5]) :=
  C9_draw_renders_palette ⟨1, 2, false, [5, 5]⟩ (List.replicate 8 0)
    (by decide) (by decide) (by decide)

/-- Folding `listSet` over `base + i` for i in 0..w succeeds when the
touched range is in bounds, and pointwise sets exactly that range to the
written value. -/
lemma setRange_spec : ∀ (w base : Nat) (l : List Nat), base + w ≤ l.length →
    ∃ l', (List.range w).foldlM (fun l i => listSet l (base + i) 36) l =
        some l' ∧ l'.length = l.length ∧
      ∀ j, l'[j]? = if base ≤ j ∧ j < base + w then some 36 else l[j]? := by
  intro w
  induction w with
  | zero =>
    intro base l hle
    refine ⟨l, by simp [List.foldlM_nil], rfl, ?_⟩
    intro j
    rw [if_neg (by omega)]
  | succ n ih =>
    intro base l hle
    obtain ⟨l1, h1, hlen1, hget1⟩ := ih base l (by omega)
    have hin : base + n < l1.length := by omega
    refine ⟨l1.set (base + n) 36, ?_, by simp [hlen1], ?_⟩
    · rw [List.range_succ, List.foldlM_append, h1]
      show List.foldlM (fun l i => listSet l (base + i) 36) l1 [n] = _
      simp [List.foldlM_cons, List.foldlM_nil, listSet, if_pos hin]
    · intro j
      rw [List.getElem?_set]
      by_cases hj : base + n = j
      · rw [if_pos hj, if_pos (by omega), if_pos (by omega)]
      · rw [if_neg hj, hget1 j]
        by_cases hr : base ≤ j ∧ j < base + n
        · rw [if_pos hr, if_pos (by omega)]
        · rw [if_neg hr, if_neg (by omega)]

/-- `ignite` on a well-formed grid succeeds and sets exactly the bottom row
(indices `(height-1)*width + i` for i in 0..width) to 36, plus the lit
flag. -/
lemma ignite_spec {df : Doomfire} (hh : 1 ≤ df.height)
    (hlen : df.fire_pixels.length = df.width * df.height)
    (hov : df.width * df.height < USIZE) :
    ∃ l', df.ignite =
        some { df with is_lit := true, fire_pixels := l' } ∧
      l'.length = df.fire_pixels.length ∧
      ∀ j, l'[j]? = if (df.height - 1) * df.width ≤ j ∧
          j < (df.height - 1) * df.width + df.width then some 36
        else df.fire_pixels[j]? := by
  have hext := foldlM_opt_ext
    (fun l i => listSet l
      (usizeAdd (usizeMul (usizeSub df.height 1) df.width) i)
      (PALETTE.length - 1))
    (fun l i => listSet l ((df.height - 1) * df.width + i) 36)
    (List.range df.width) df.fire_pixels
    (fun a i hi => by
      have hiw : i < df.width := List.mem_range.mp hi
      have hwpos : 1 ≤ df.width := by omega
      have hhU : df.height ≤ df.width * df.height := by
        calc df.height = 1 * df.height := (Nat.one_mul _).symm
        _ ≤ df.width * df.height := Nat.mul_le_mul_right _ hwpos
      have hbase : (df.height - 1) * df.width ≤ df.width * df.height := by
        calc (df.height - 1) * df.width ≤ df.height * df.width :=
          Nat.mul_le_mul_right _ (by omega)
        _ = df.width * df.height := Nat.mul_comm _ _
      have hbw : (df.height - 1) * df.width + df.width =
          df.height * df.width := by
        have : df.height - 1 + 1 = df.height := by omega
        calc (df.height - 1) * df.width + df.width
            = (df.height - 1 + 1) * df.width := by ring
        _ = df.height * df.width := by rw [this]
      have hcm : df.height * df.width = df.width * df.height :=
        Nat.mul_comm _ _
      show listSet a
          (usizeAdd (usizeMul (usizeSub df.height 1) df.width) i)
          (PALETTE.length - 1) =
        listSet a ((df.height - 1) * df.width + i) 36
      rw [usizeSub_eq hh (by omega), usizeMul_eq (by omega),
        usizeAdd_eq (by omega)]
      rfl)
  obtain ⟨l', hfold, hl, hget⟩ := setRange_spec df.width
    ((df.height - 1) * df.width) df.fire_pixels (by
      have : (df.height - 1) * df.width + df.width =
          df.height * df.width := by
        have h1 : df.height - 1 + 1 = df.height := by omega
        calc (df.height - 1) * df.width + df.width
            = (df.height - 1 + 1) * df.width := by ring
        _ = df.height * df.width := by rw [h1]
      rw [this, hlen, Nat.mul_comm])
  refine ⟨l', ?_, hl, hget⟩
  unfold Doomfire.ignite
  rw [hext, hfold]
  rfl

/-- The grid after a successful ignite of `new w h`: bottom row all 36,
everything above still 0. -/
lemma ignite_new (w h : Nat) (hh : 1 ≤ h) (hov : w * h < USIZE) :
    (Doomfire.new w h).ignite = some ⟨w, h, true,
      List.replicate ((h - 1) * w) 0 ++ List.replicate w 36⟩ := by
  have hlen : (Doomfire.new w h).fire_pixels.length = w * h := by
    simp [Doomfire.new, usizeMul_eq hov]
  obtain ⟨l', hig, hl, hget⟩ := ignite_spec hh hlen hov
  simp only [Doomfire.new] at hig hget
  have hbw : (h - 1) * w + w = h * w := by
    have h1 : h - 1 + 1 = h := by omega
    calc (h - 1) * w + w = (h - 1 + 1) * w := by ring
    _ = h * w := by rw [h1]
  have hcm : h * w = w * h := Nat.mul_comm _ _
  have hleq : l' = List.replicate ((h - 1) * w) 0 ++ List.replicate w 36 := by
    apply List.ext_getElem?
    intro j
    rw [hget j, List.getElem?_append]
    simp only [List.length_replicate, List.getElem?_replicate,
      usizeMul_eq hov]
    by_cases h1 : (h - 1) * w ≤ j ∧ j < (h - 1) * w + w
    · rw [if_pos h1, if_neg (by omega), if_pos (by omega)]
    · rw [if_neg h1]
      by_cases h2 : j < (h - 1) * w
      · rw [if_pos h2, if_pos h2, if_pos (by omega)]
      · rw [if_neg h2, if_neg (by omega), if_neg (by omega)]
  simp only [Doomfire.new]
  rw [hig, hleq]

/-- Igniting the already-ignited state is a no-op: the bottom row is
re-asserted to 36, which changes nothing. -/
lemma ignite_fixed (w h : Nat) (hh : 1 ≤ h) (hov : w * h < USIZE) :
    Doomfire.ignite ⟨w, h, true,
        List.replicate ((h - 1) * w) 0 ++ List.replicate w 36⟩ =
      some ⟨w, h, true,
        List.replicate ((h - 1) * w) 0 ++ List.replicate w 36⟩ := by
  have hbw : (h - 1) * w + w = h * w := by
    have h1 : h - 1 + 1 = h := by omega
    calc (h - 1) * w + w = (h - 1 + 1) * w := by ring
    _ = h * w := by rw [h1]
  have hlen : (Doomfire.fire_pixels ⟨w, h, true,
      List.replicate ((h - 1) * w) 0 ++ List.replicate w 36⟩).length =
      w * h := by
    simp only [List.length_append, List.length_replicate]
    rw [hbw, Nat.mul_comm]
  obtain ⟨l', hig, hl, hget⟩ := ignite_spec hh hlen hov
  have hleq : l' = List.replicate ((h - 1) * w) 0 ++ List.replicate w 36 := by
    apply List.ext_getElem?
    intro j
    rw [hget j]
    simp only [List.getElem?_append, List.length_replicate,
      List.getElem?_replicate]
    by_cases h1 : (h - 1) * w ≤ j ∧ j < (h - 1) * w + w
    · rw [if_pos h1, if_neg (by omega), if_pos (by omega)]
    · rw [if_neg h1]
  rw [hig, hleq]

/-- Any number of further ignites keeps the ignited state fixed. -/
lemma ignites_fixed (w h : Nat) (hh : 1 ≤ h) (hov : w * h < USIZE) :
    ∀ k, ignites k ⟨w, h, true,
        List.replicate ((h - 1) * w) 0 ++ List.replicate w 36⟩ =
      some ⟨w, h, true,
        List.replicate ((h - 1) * w) 0 ++ List.replicate w 36⟩ := by
  intro k
  induction k with
  | zero => rfl
  | succ n ih =>
    show (Doomfire.ignite _).bind (ignites n) = _
    rw [ignite_fixed w h hh hov]
    simpa using ih

/-- C7: after `new w h` followed by one or more `ignite()` calls, every cell
of the bottom row (row h-1) is 36, every cell of the rows above is 0, and
the lit flag is set; `ignite` touches nothing else and is idempotent.  The
resulting grid is literally `replicate ((h-1)*w) 0 ++ replicate w 36`. -/
theorem C7_ignite_idempotent (w h k : Nat) (hh : 1 ≤ h)
    (hov : w * h < USIZE) :
    ignites (k + 1) (Doomfire.new w h) = some ⟨w, h, true,
      List.replicate ((h - 1) * w) 0 ++ List.replicate w 36⟩ := by
  show ((Doomfire.new w h).ignite).bind (ignites k) = _
  rw [ignite_new w h hh hov]
  simpa using ignites_fixed w h hh hov k

/-- Witness for C7: two ignites on a 2×2 field give bottom row 36s, top row
0s, lit. -/
theorem C7_witness :
    ignites 2 (Doomfire.new 2 2) = some ⟨2, 2, true, [0, 0, 36, 36]⟩ :=
  C7_ignite_idempotent 2 2 1 (by decide) (by decide)

/-- C8 counterexample: decay to zero does NOT hold for every draw sequence.
From `new(4,4)`, `ignite()`, `extinguish()`, the draw sequence that yields
`rand = rand2 = 0` at every cell makes the post-extinguish state a fixed
point of `step()`: each bottom-row 36 is copied one cell to the right
(clamped at the last cell), so after 40 = 10×height steps the bottom row
still holds 36 everywhere — the grid never reaches all-zero. -/
theorem C8_counterexample :
    (((Doomfire.new 4 4).ignite).map Doomfire.extinguish).bind
      (steps (List.replicate 40 (fun _ => 0))) =
    some ⟨4, 4, false,
      [0, 0, 0, 0, 0, 0, 0, 0, 0, 0, 0, 0, 36, 36, 36, 36]⟩ := by decide

/-- C8 amended: decay to all-zero within 10×height steps holds for SOME
draw sequence, not every one: with draws alternating 1, 0 (so every cell
gets `rand = 1`, `rand2 = 0`, i.e. an in-place decrement), the 4×4 field
after `new`, `ignite`, `extinguish` reaches the all-zero grid in 36 ≤ 40
steps; and once every cell is zero, every subsequent `step()` keeps every
cell zero for every draw sequence (the zero branch only propagates zeros). -/
theorem C8_decay (df : Doomfire) (oracle : Nat → Nat) :
    ((((Doomfire.new 4 4).ignite).map Doomfire.extinguish).bind
      (steps (List.replicate 36 (fun n => if n % 2 = 0 then 1 else 0))) =
      some ⟨4, 4, false, List.replicate 16 0⟩) ∧
    (df.fire_pixels.length = df.width * df.height →
      df.width * df.height < USIZE →
      (∀ v ∈ df.fire_pixels, v = 0) →
      ∃ df', df.update oracle = some df' ∧ ∀ v ∈ df'.fire_pixels, v = 0) := by
  constructor
  · decide
  · intro hlen hov hz
    obtain ⟨df', h1, _, h3⟩ := update_zero hlen hov hz
    exact ⟨df', h1, h3⟩

/-- Witness for C8's amended theorem at a concrete all-zero 2×2 field. -/
theorem C8_witness :
    ∃ df', Doomfire.update ⟨2, 2, false, [0, 0, 0, 0]⟩ (fun _ => 3) =
      some df' ∧ ∀ v ∈ df'.fire_pixels, v = 0 :=
  (C8_decay ⟨2, 2, false, [0, 0, 0, 0]⟩ (fun _ => 3)).2 (by decide) (by decide)
    (by decide)

